import Mathlib

/-!
A shallow embedding of `poller.go` from `peterargue/flow-event-poller`, together
with proofs checking the repository's specification against it.

Modelling conventions:
* Block heights are `Nat` (the Go code uses `uint64`; no height arithmetic in the
  code can overflow in any scenario considered here, and no wrap-around semantics
  are relied upon).
* The Flow access client (`client.Client`) is an external collaborator; each tick
  sees an environment `TickClient` giving the responses of the three API calls the
  poller makes.  `GetBlockHeaderByHeight h` is modelled as returning the header of
  height `h` on success (a height-consistent chain client), so the success payload
  is determined by `h` and only the error is environmental.
* Go errors are modelled by the inductive `GoError`; `fmt.Errorf("...: %w", err)`
  becomes `GoError.wrapped`, `context.Canceled` becomes `GoError.canceled` and the
  package-level `ErrAbort` becomes `GoError.abort`.  `errors.Is` is modelled
  faithfully by `errorsIs`, including its behaviour on `nil` arguments.
* Context cancellation is modelled by a logical clock: the clock advances by one
  at every channel-send attempt and at every scheduler select, and `Ctx.cancelAt`
  is the instant from which `ctx.Done()` is closed / `ctx.Err()` is non-nil.
  When both the cancellation and the ordinary case of a Go `select` are ready the
  model resolves the race in favour of cancellation.
* Go map iteration order is not specified; the model iterates the subscription
  map in insertion order.
* Effects that the code performs (event-range queries, channel deliveries) and
  the per-iteration height windows are recorded in a ghost `Trace`; the trace
  does not influence control flow.
-/

namespace FlowEventPoller

/-- Go `error` values as used by `poller.go`: `context.Canceled`, the package's
`ErrAbort`, wrapping via `fmt.Errorf(..., %w err)`, and opaque client errors. -/
inductive GoError where
  | canceled : GoError
  | abort : GoError
  | wrapped : String → GoError → GoError
  | other : String → GoError
deriving DecidableEq, Repr

/-- Go's `errors.Is(err, target)` on a (possibly wrapped) non-nil error:
true when `target` appears along the unwrap chain of `err`. -/
def goErrorIs : GoError → GoError → Bool
  | e, target =>
    if e = target then true
    else
      match e with
      | .wrapped _ inner => goErrorIs inner target
      | _ => false

/-- Go's `errors.Is(err, target)` with `nil` modelled as `none`.  Note that
`errors.Is(nil, nil)` is `true` in Go (`target == nil` short-circuits to
`err == target`). -/
def errorsIs (err target : Option GoError) : Bool :=
  match target with
  | none => err.isNone
  | some tgt =>
    match err with
    | none => false
    | some e => goErrorIs e tgt

/-- `flow.BlockHeader`, reduced to the only field `poller.go` reads. -/
structure Header where
  height : Nat
deriving DecidableEq, Repr

/-- `flow.Event`, reduced to the only field `poller.go` reads (`event.Type`). -/
structure Event where
  type : String
deriving DecidableEq, Repr

/-- `flow.BlockEvents`, reduced to the only field `poller.go` reads
(`be.Events`). -/
structure BlockEvents where
  events : List Event
deriving DecidableEq, Repr

/-- The `Subscription` struct of `poller.go`.  The Go struct also carries the
delivery channel; channel deliveries are modelled in the ghost trace, keyed by
the subscription id. -/
structure Subscription where
  ID : String
  Events : List String
deriving DecidableEq, Repr

/-- The poller's `subscriptions` field, Go type `map[string][]*Subscription`,
modelled as an association list (one entry per key in every reachable state). -/
abbrev SubsMap := List (String × List Subscription)

/-- Map read `m[k]` distinguishing a missing key from an empty slice. -/
def mapGet (m : SubsMap) (k : String) : Option (List Subscription) :=
  match m with
  | [] => none
  | (k', v) :: rest => if k' = k then some v else mapGet rest k

/-- Map write `m[k] = v` (replaces the entry for `k`, or creates it). -/
def mapSet (m : SubsMap) (k : String) (v : List Subscription) : SubsMap :=
  match m with
  | [] => [(k, v)]
  | (k', v') :: rest => if k' = k then (k, v) :: rest else (k', v') :: mapSet rest k v

/-- Map delete `delete(m, k)`. -/
def mapDel (m : SubsMap) (k : String) : SubsMap :=
  match m with
  | [] => []
  | (k', v') :: rest => if k' = k then rest else (k', v') :: mapDel rest k

/-- The keys of the subscription map. -/
def keys (m : SubsMap) : List String := m.map Prod.fst

/-- Number of occurrences of the subscription with the given id in a slice. -/
def countId (id : String) (l : List Subscription) : Nat :=
  l.countP (fun s => s.ID == id)

/-- Number of occurrences of the subscription with the given id in the slice
registered under key `k` (0 when the key is absent). -/
def countIdAt (id : String) (m : SubsMap) (k : String) : Nat :=
  countId id ((mapGet m k).getD [])

/-- One iteration of the registration loop in `Subscribe`:
`p.subscriptions[event] = append(p.subscriptions[event], sub)`. -/
def subscribeStep (m : SubsMap) (event : String) (sub : Subscription) : SubsMap :=
  mapSet m event ((mapGet m event).getD [] ++ [sub])

/-- `(*EventPoller).Subscribe` from `poller.go`.  The fresh random id produced
by `randomString(16)` is supplied as the parameter `id`; the function returns
the updated map together with the returned `*Subscription` handle. -/
def subscribe (m : SubsMap) (events : List String) (id : String) :
    SubsMap × Subscription :=
  let sub : Subscription := { ID := id, Events := events }
  (events.foldl (fun acc event => subscribeStep acc event sub) m, sub)

/-- The inner removal loop of `Unsubscribe`: removes the first subscription
with the matching id (the Go loop breaks after the first hit). -/
def removeFirstById (id : String) : List Subscription → List Subscription
  | [] => []
  | sub :: rest => if sub.ID = id then rest else sub :: removeFirstById id rest

/-- One iteration of the loop in `Unsubscribe`: skip missing keys, remove the
first subscription with a matching id, delete the key if its slice is empty. -/
def unsubscribeStep (m : SubsMap) (id : String) (event : String) : SubsMap :=
  match mapGet m event with
  | none => m
  | some subs =>
    let subs' := removeFirstById id subs
    if subs'.isEmpty then mapDel m event else mapSet m event subs'

/-- `(*EventPoller).Unsubscribe` from `poller.go`. -/
def unsubscribe (m : SubsMap) (id : String) (events : List String) : SubsMap :=
  events.foldl (fun acc event => unsubscribeStep acc id event) m

/-- A registry operation: one `Subscribe` call (with the id chosen by
`randomString`) or one `Unsubscribe` call. -/
inductive Op where
  | subscribeOp (events : List String) (id : String)
  | unsubscribeOp (id : String) (events : List String)

/-- Apply one registry operation to the subscription map. -/
def applyOp (m : SubsMap) : Op → SubsMap
  | .subscribeOp events id => (subscribe m events id).1
  | .unsubscribeOp id events => unsubscribe m id events

/-- The subscription map after a sequence of registry operations starting from
the fresh map built by `NewEventPoller`. -/
def runOps (ops : List Op) : SubsMap :=
  ops.foldl applyOp []

/-- The registry invariant of the specification: every subscription referenced
under an event type lists that type in its own `Events`, and no event type maps
to an empty slice. -/
def RegInvariant (m : SubsMap) : Prop :=
  (∀ p ∈ m, ∀ s ∈ p.2, p.1 ∈ s.Events) ∧ (∀ p ∈ m, p.2 ≠ [])

/-- `DefaultMaxHeightRange` from `poller.go`. -/
def DefaultMaxHeightRange : Nat := 250

/-- The `ErrorBehavior` enumeration from `poller.go`. -/
inductive ErrorBehavior where
  | ErrorBehaviorContinue : ErrorBehavior
  | ErrorBehaviorStop : ErrorBehavior
deriving DecidableEq, Repr

/-- The `EventPoller` struct (the client and the interval are modelled
separately; the interval only schedules ticks and carries no other meaning). -/
structure EventPoller where
  StartHeight : Nat
  PollingErrorBehavior : ErrorBehavior
  subscriptions : SubsMap

/-- The environment's responses to the three client calls a tick can make.
`headerByHeight h` returns `none` for success — the returned header is then the
header of height `h` — or `some e` for failure with error `e`. -/
structure TickClient where
  latestHeader : Except GoError Header
  headerByHeight : Nat → Option GoError
  eventsForRange : String → Nat → Nat → Except GoError (List BlockEvents)

/-- The cancellation context: `cancelAt = some c` means `ctx.Done()` is closed
from logical instant `c` on. -/
structure Ctx where
  cancelAt : Option Nat

/-- Whether the context is observed as cancelled at instant `t`. -/
def Ctx.isCancelled (ctx : Ctx) (t : Nat) : Bool :=
  match ctx.cancelAt with
  | none => false
  | some c => c ≤ t

/-- `ctx.Err()` at instant `t`. -/
def Ctx.err (ctx : Ctx) (t : Nat) : Option GoError :=
  if ctx.isCancelled t then some .canceled else none

/-- Ghost record of the observable actions of a run: the height windows the
tick loop iterates over, the `GetEventsForHeightRange` queries
`(type, start, end)` issued, and the channel deliveries `(subscription id,
event type)` performed. -/
structure Trace where
  windows : List (Nat × Nat)
  queries : List (String × Nat × Nat)
  sends : List (String × String)
deriving DecidableEq, Repr

instance : Append Trace := ⟨fun a b => ⟨a.windows ++ b.windows, a.queries ++ b.queries, a.sends ++ b.sends⟩⟩

/-- The empty trace. -/
def Trace.nil : Trace := ⟨[], [], []⟩

/-- The fan-out loop over `p.subscriptions[event.Type]` in `pollEvents`:
each delivery is a `select` between `ctx.Done()` and the channel send.  Returns
whether cancellation was observed (the Go code then returns from `pollEvents`),
the advanced clock, and the deliveries made. -/
def sendToSubs (ctx : Ctx) (subs : List Subscription) (evType : String) (t : Nat) :
    Bool × Nat × List (String × String) :=
  match subs with
  | [] => (false, t, [])
  | sub :: rest =>
    if ctx.isCancelled t then (true, t, [])
    else
      let r := sendToSubs ctx rest evType (t + 1)
      (r.1, r.2.1, (sub.ID, evType) :: r.2.2)

/-- The loop over `be.Events` in `pollEvents`. -/
def sendEvents (subsMap : SubsMap) (ctx : Ctx) (events : List Event) (t : Nat) :
    Bool × Nat × List (String × String) :=
  match events with
  | [] => (false, t, [])
  | ev :: rest =>
    let r := sendToSubs ctx ((mapGet subsMap ev.type).getD []) ev.type t
    if r.1 then r
    else
      let r2 := sendEvents subsMap ctx rest r.2.1
      (r2.1, r2.2.1, r.2.2 ++ r2.2.2)

/-- The loop over `blockEvents` in `pollEvents`. -/
def sendBlocks (subsMap : SubsMap) (ctx : Ctx) (blocks : List BlockEvents) (t : Nat) :
    Bool × Nat × List (String × String) :=
  match blocks with
  | [] => (false, t, [])
  | b :: rest =>
    let r := sendEvents subsMap ctx b.events t
    if r.1 then r
    else
      let r2 := sendBlocks subsMap ctx rest r.2.1
      (r2.1, r2.2.1, r.2.2 ++ r2.2.2)

/-- `(*EventPoller).pollEvents` from `poller.go`: one
`GetEventsForHeightRange` query for one event type over one window, followed by
the blocking fan-out.  Note that observing cancellation mid-send makes the Go
function return `nil`, not an error. -/
def pollEvents (p : EventPoller) (cl : TickClient) (ctx : Ctx)
    (startHeight : Nat) (header : Header) (eventType : String) (t : Nat) :
    Except GoError Unit × Nat × Trace :=
  match cl.eventsForRange eventType startHeight header.height with
  | .error e => (.error e, t, ⟨[], [(eventType, startHeight, header.height)], []⟩)
  | .ok blocks =>
    let r := sendBlocks p.subscriptions ctx blocks t
    (.ok (), r.2.1, ⟨[], [(eventType, startHeight, header.height)], r.2.2⟩)

/-- The `for eventSub := range p.subscriptions` loop of `checkSubscriptions`:
on a `pollEvents` error it returns `ctx.Err()` when the context is cancelled,
`ErrAbort` under the stop policy, and otherwise logs and continues with the
next type.  `none` means the loop ran to completion. -/
def pollTypes (p : EventPoller) (cl : TickClient) (ctx : Ctx)
    (types : List String) (startHeight : Nat) (header : Header) (t : Nat) :
    Option GoError × Nat × Trace :=
  match types with
  | [] => (none, t, Trace.nil)
  | ty :: rest =>
    let r := pollEvents p cl ctx startHeight header ty t
    match r.1 with
    | .ok _ =>
      let r2 := pollTypes p cl ctx rest startHeight header r.2.1
      (r2.1, r2.2.1, r.2.2 ++ r2.2.2)
    | .error _ =>
      if ctx.isCancelled r.2.1 then (some .canceled, r.2.1, r.2.2)
      else if p.PollingErrorBehavior = .ErrorBehaviorStop then (some .abort, r.2.1, r.2.2)
      else
        let r2 := pollTypes p cl ctx rest startHeight header r.2.1
        (r2.1, r2.2.1, r.2.2 ++ r2.2.2)

/-- One iteration of the windowing loop of `checkSubscriptions`: poll every
subscribed type over the window `(lastHeight+1, hdr.Height)`, recording the
window in the ghost trace.  Returns the early-exit error of the type loop (if
any), the advanced clock, and the iteration's trace. -/
def checkSubsIter (p : EventPoller) (cl : TickClient) (ctx : Ctx)
    (lastHeight : Nat) (hdr : Header) (t : Nat) : Option GoError × Nat × Trace :=
  let r := pollTypes p cl ctx (keys p.subscriptions) (lastHeight + 1) hdr t
  (r.1, r.2.1, ⟨(lastHeight + 1, hdr.height) :: r.2.2.windows, r.2.2.queries, r.2.2.sends⟩)

/-- Continuation glue for a non-final loop iteration
(`header.Height != latest.Height`): an early-exit error returns it from
`checkSubscriptions`, otherwise the loop continues (with `lastHeader := header`)
at the clock where the iteration stopped. -/
def checkSubsCont (r : Option GoError × Nat × Trace)
    (rec : Nat → Except GoError Header × Nat × Trace) :
    Except GoError Header × Nat × Trace :=
  match r.1 with
  | some e => (.error e, r.2.1, r.2.2)
  | none =>
    let r2 := rec r.2.1
    (r2.1, r2.2.1, r.2.2 ++ r2.2.2)

/-- Glue for the final loop iteration (`header.Height == latest.Height`): an
early-exit error returns it, otherwise the loop breaks and `checkSubscriptions`
returns the latest header. -/
def checkSubsLast (latestHeight : Nat) (r : Option GoError × Nat × Trace) :
    Except GoError Header × Nat × Trace :=
  match r.1 with
  | some e => (.error e, r.2.1, r.2.2)
  | none => (.ok ⟨latestHeight⟩, r.2.1, r.2.2)

/-- The windowing loop of `checkSubscriptions` (`for { ... }`), entered with the
height of the tick's `latest` header and the height of `lastHeader`.  Each
iteration caps the window at `lastHeader.Height + DefaultMaxHeightRange`
(fetching that header when the cap applies, and wrapping a failure of that
fetch), polls every subscribed type over the window, and exits once the
window's header is the latest header. -/
def checkSubsLoop (p : EventPoller) (cl : TickClient) (ctx : Ctx)
    (latestHeight lastHeight : Nat) (t : Nat) :
    Except GoError Header × Nat × Trace :=
  if _hgt : latestHeight > lastHeight + DefaultMaxHeightRange then
    match cl.headerByHeight (lastHeight + DefaultMaxHeightRange) with
    | some e => (.error (.wrapped "error getting header for height" e), t, Trace.nil)
    | none =>
      checkSubsCont
        (checkSubsIter p cl ctx lastHeight ⟨lastHeight + DefaultMaxHeightRange⟩ t)
        (fun u => checkSubsLoop p cl ctx latestHeight (lastHeight + DefaultMaxHeightRange) u)
  else
    checkSubsLast latestHeight (checkSubsIter p cl ctx lastHeight ⟨latestHeight⟩ t)
termination_by latestHeight - lastHeight
decreasing_by
  simp only [DefaultMaxHeightRange] at *
  omega

/-- `(*EventPoller).checkSubscriptions` from `poller.go`: query the latest
sealed header (wrapping a failure), then run the windowing loop. -/
def checkSubscriptions (p : EventPoller) (cl : TickClient) (ctx : Ctx)
    (lastHeader : Header) (t : Nat) :
    Except GoError Header × Nat × Trace :=
  match cl.latestHeader with
  | .error e => (.error (.wrapped "error getting latest header" e), t, Trace.nil)
  | .ok latest => checkSubsLoop p cl ctx latest.height lastHeader.height t

/-- `(*EventPoller).startHeader` from `poller.go`. -/
def startHeader (p : EventPoller) (cl : TickClient) : Except GoError Header :=
  if p.StartHeight > 0 then
    match cl.headerByHeight p.StartHeight with
    | some e => .error e
    | none => .ok ⟨p.StartHeight⟩
  else
    cl.latestHeader

/-- The observable outcome of (a finite prefix of) `Run`: either `Run`
returned — with the Go error it returned (`none` is Go `nil`) and the reference
height it held at that moment — or the simulated prefix ended with `Run` still
looping at the given reference height. -/
inductive RunResult where
  | returned (err : Option GoError) (refHeight : Nat) : RunResult
  | running (refHeight : Nat) : RunResult
deriving DecidableEq, Repr

/-- The `for { select ... } }` loop of `(*EventPoller).Run`.  `clients i` gives
the environment's responses during tick `i`; `fuel` bounds the number of
simulated loop iterations.  The clock advances by one at each select, and the
error triage after `checkSubscriptions` mirrors lines 114–134 of `poller.go`,
including the exact `errors.Is(err, ctx.Err())` and `errors.Is(err, ErrAbort)`
tests. -/
def runLoop (p : EventPoller) (clients : Nat → TickClient) (ctx : Ctx)
    (lastest : Header) (i : Nat) (t : Nat) : Nat → RunResult × Trace
  | 0 => (.running lastest.height, Trace.nil)
  | fuel + 1 =>
    if ctx.isCancelled t then (.returned none lastest.height, Trace.nil)
    else
      let r := checkSubscriptions p (clients i) ctx lastest (t + 1)
      let err : Option GoError := match r.1 with | .error e => some e | .ok _ => none
      if errorsIs err (ctx.err r.2.1) then (.returned none lastest.height, r.2.2)
      else if errorsIs err (some .abort) then (.returned err lastest.height, r.2.2)
      else
        match r.1 with
        | .error _ =>
          let r2 := runLoop p clients ctx lastest (i + 1) r.2.1 fuel
          (r2.1, r.2.2 ++ r2.2)
        | .ok newLatest =>
          let r2 := runLoop p clients ctx newLatest (i + 1) r.2.1 fuel
          (r2.1, r.2.2 ++ r2.2)

/-- `(*EventPoller).Run` from `poller.go`: resolve the start header (a failure
is wrapped and returned), then enter the polling loop.  `startCl` answers the
one-time start-header query. -/
def run (p : EventPoller) (startCl : TickClient) (clients : Nat → TickClient)
    (ctx : Ctx) (fuel : Nat) : RunResult × Trace :=
  match startHeader p startCl with
  | .error e => (.returned (some (.wrapped "error getting start header" e)) 0, Trace.nil)
  | .ok hdr => runLoop p clients ctx hdr 0 0 fuel

/-- Modelled from the spec (§4.2 Height-Range Chunker), for comparison with the
windows the code actually iterates: produce `(last+1, min(last+maxRange, head))`
and repeat with the lower bound equal to the previous window's end, stopping
when the head is reached; zero windows when `head ≤ last`. -/
def specWindows (last head : Nat) : List (Nat × Nat) :=
  if last < head then
    let e := min (last + DefaultMaxHeightRange) head
    (last + 1, e) :: specWindows e head
  else []
termination_by head - last
decreasing_by
  simp only [DefaultMaxHeightRange] at *
  omega

/-- The inclusive list of heights an `(start, end)` window covers. -/
def windowHeights (w : Nat × Nat) : List Nat :=
  List.range' w.1 (w.2 + 1 - w.1)

/-! ### Concrete scenario fixtures

Fixture values used by the closed scenario theorems below. -/

/-- A context that is never cancelled. -/
def ctxNever : Ctx := ⟨none⟩

/-- A poller with the given error policy and subscription map (start height 0). -/
def pollerOf (beh : ErrorBehavior) (subs : SubsMap) : EventPoller :=
  { StartHeight := 0, PollingErrorBehavior := beh, subscriptions := subs }

/-- A client whose chain head is at `head`, whose header lookups succeed, and
whose event queries all succeed returning `evs`. -/
def okClient (head : Nat) (evs : List BlockEvents) : TickClient :=
  { latestHeader := .ok ⟨head⟩
    headerByHeight := fun _ => none
    eventsForRange := fun _ _ _ => .ok evs }

/-- A client whose latest-header query fails with `e`. -/
def errHeadClient (e : GoError) : TickClient :=
  { latestHeader := .error e
    headerByHeight := fun _ => none
    eventsForRange := fun _ _ _ => .ok [] }

/-- Scenario client: head at 101, event queries for type "A" fail with a
network error, queries for other types return one block holding one "B"
event. -/
def c1Client : TickClient :=
  { latestHeader := .ok ⟨101⟩
    headerByHeight := fun _ => none
    eventsForRange := fun ty _ _ =>
      if ty = "A" then .error (.other "network error") else .ok [⟨[⟨"B"⟩]⟩] }

/-- Scenario poller: continue policy, one subscriber on "A" and one on "B". -/
def c1Poller : EventPoller :=
  pollerOf .ErrorBehaviorContinue
    [("A", [{ ID := "sA", Events := ["A"] }]), ("B", [{ ID := "sB", Events := ["B"] }])]

/-- Scenario poller: continue policy, one subscriber on "A". -/
def c3Poller : EventPoller :=
  pollerOf .ErrorBehaviorContinue [("A", [{ ID := "s1", Events := ["A"] }])]

/-- Scenario poller: continue policy, two subscribers on "A". -/
def c5Poller : EventPoller :=
  pollerOf .ErrorBehaviorContinue
    [("A", [{ ID := "s1", Events := ["A"] }, { ID := "s2", Events := ["A"] }])]

/-- Scenario client: head at 101, every event query returns one block holding
one "A" event. -/
def c5Client : TickClient := okClient 101 [⟨[⟨"A"⟩]⟩]

/-! ### Association-list lemmas for the subscription map -/

theorem mapGet_eq_none (m : SubsMap) (k : String) (h : k ∉ keys m) :
    mapGet m k = none := by
  induction m with
  | nil => rfl
  | cons p rest ih =>
    obtain ⟨k₀, v₀⟩ := p
    simp only [keys, List.map_cons, List.mem_cons, not_or] at h
    have hne : ¬ k₀ = k := fun hh => h.1 hh.symm
    simp only [mapGet, if_neg hne]
    exact ih h.2

theorem mapGet_mapSet (m : SubsMap) (k k' : String) (v : List Subscription) :
    mapGet (mapSet m k v) k' = if k = k' then some v else mapGet m k' := by
  induction m with
  | nil => simp only [mapSet, mapGet]
  | cons p rest ih =>
    obtain ⟨k₀, v₀⟩ := p
    by_cases h0 : k₀ = k
    · subst h0
      simp only [mapSet, if_pos rfl, mapGet]
      by_cases h1 : k₀ = k'
      · simp [h1]
      · simp [h1]
    · simp only [mapSet, if_neg h0, mapGet, ih]
      by_cases h1 : k₀ = k'
      · subst h1
        have hk : ¬ k = k₀ := fun hh => h0 hh.symm
        simp [hk]
      · simp [h1]

theorem mapGet_mem (m : SubsMap) (k : String) (v : List Subscription)
    (h : mapGet m k = some v) : (k, v) ∈ m := by
  induction m with
  | nil => simp [mapGet] at h
  | cons p rest ih =>
    obtain ⟨k₀, v₀⟩ := p
    by_cases h0 : k₀ = k
    · subst h0
      have hv : v₀ = v := by simpa [mapGet] using h
      subst hv
      exact List.mem_cons_self _ _
    · simp only [mapGet, if_neg h0] at h
      exact List.mem_cons_of_mem _ (ih h)

theorem mem_mapGet (m : SubsMap) (k : String) (v : List Subscription)
    (hnd : (keys m).Nodup) (h : (k, v) ∈ m) : mapGet m k = some v := by
  induction m with
  | nil => simp at h
  | cons p rest ih =>
    obtain ⟨k₀, v₀⟩ := p
    simp only [keys, List.map_cons, List.nodup_cons] at hnd
    rcases List.mem_cons.1 h with heq | hmem
    · have hk : k = k₀ := congrArg Prod.fst heq
      have hv : v = v₀ := congrArg Prod.snd heq
      subst hk
      subst hv
      simp [mapGet]
    · have hk : k ∈ keys rest := List.mem_map_of_mem Prod.fst hmem
      have h0 : ¬ k₀ = k := fun he => hnd.1 (he ▸ hk)
      simp only [mapGet, if_neg h0]
      exact ih hnd.2 hmem

theorem mem_mapSet (m : SubsMap) (k : String) (v : List Subscription)
    (p : String × List Subscription) (h : p ∈ mapSet m k v) :
    p = (k, v) ∨ p ∈ m := by
  induction m with
  | nil => simpa [mapSet] using h
  | cons q rest ih =>
    obtain ⟨k₀, v₀⟩ := q
    by_cases h0 : k₀ = k
    · simp only [mapSet, if_pos h0, List.mem_cons] at h
      rcases h with h | h
      · exact Or.inl h
      · exact Or.inr (List.mem_cons_of_mem _ h)
    · simp only [mapSet, if_neg h0, List.mem_cons] at h
      rcases h with h | h
      · exact Or.inr (h ▸ List.mem_cons_self _ _)
      · rcases ih h with h | h
        · exact Or.inl h
        · exact Or.inr (List.mem_cons_of_mem _ h)

theorem mapDel_sublist (m : SubsMap) (k : String) : (mapDel m k).Sublist m := by
  induction m with
  | nil => exact List.Sublist.refl _
  | cons p rest ih =>
    obtain ⟨k₀, v₀⟩ := p
    by_cases h0 : k₀ = k
    · simp only [mapDel, if_pos h0]
      exact List.sublist_cons_self _ _
    · simp only [mapDel, if_neg h0]
      exact ih.cons₂ (k₀, v₀)

theorem mem_mapDel (m : SubsMap) (k : String) (p : String × List Subscription)
    (h : p ∈ mapDel m k) : p ∈ m :=
  (mapDel_sublist m k).mem h

theorem mem_keys_mapSet (m : SubsMap) (k k' : String) (v : List Subscription)
    (h : k' ∈ keys (mapSet m k v)) : k' = k ∨ k' ∈ keys m := by
  rcases List.mem_map.1 h with ⟨p, hp, hpe⟩
  rcases mem_mapSet m k v p hp with h | h
  · exact Or.inl (hpe ▸ h ▸ rfl)
  · exact Or.inr (hpe ▸ List.mem_map_of_mem Prod.fst h)

theorem keys_nodup_mapSet (m : SubsMap) (k : String) (v : List Subscription)
    (hnd : (keys m).Nodup) : (keys (mapSet m k v)).Nodup := by
  induction m with
  | nil => simp [mapSet, keys]
  | cons p rest ih =>
    obtain ⟨k₀, v₀⟩ := p
    simp only [keys, List.map_cons, List.nodup_cons] at hnd
    by_cases h0 : k₀ = k
    · simp only [mapSet, if_pos h0, keys, List.map_cons, List.nodup_cons]
      subst h0
      exact hnd
    · simp only [mapSet, if_neg h0, keys, List.map_cons, List.nodup_cons]
      refine ⟨fun hc => ?_, ih hnd.2⟩
      rcases mem_keys_mapSet rest k k₀ v hc with h | h
      · exact h0 h
      · exact hnd.1 h

theorem keys_nodup_mapDel (m : SubsMap) (k : String)
    (hnd : (keys m).Nodup) : (keys (mapDel m k)).Nodup :=
  hnd.sublist ((mapDel_sublist m k).map Prod.fst)

theorem mapGet_mapDel (m : SubsMap) (k k' : String) (hnd : (keys m).Nodup) :
    mapGet (mapDel m k) k' = if k = k' then none else mapGet m k' := by
  induction m with
  | nil => simp [mapDel, mapGet]
  | cons p rest ih =>
    obtain ⟨k₀, v₀⟩ := p
    simp only [keys, List.map_cons, List.nodup_cons] at hnd
    by_cases h0 : k₀ = k
    · simp only [mapDel, if_pos h0]
      subst h0
      by_cases h1 : k₀ = k'
      · subst h1
        simp [mapGet_eq_none rest k₀ hnd.1]
      · have hk : ¬ k₀ = k' := h1
        simp [mapGet, hk]
    · simp only [mapDel, if_neg h0, mapGet]
      by_cases h1 : k₀ = k'
      · subst h1
        have hk : ¬ k = k₀ := fun hh => h0 hh.symm
        simp [hk]
      · simp only [if_neg h1, ih hnd.2]

theorem mapSet_self (m : SubsMap) (k : String) (v : List Subscription)
    (h : mapGet m k = some v) : mapSet m k v = m := by
  induction m with
  | nil => simp [mapGet] at h
  | cons p rest ih =>
    obtain ⟨k₀, v₀⟩ := p
    by_cases h0 : k₀ = k
    · subst h0
      have hv : v₀ = v := by simpa [mapGet] using h
      subst hv
      simp [mapSet]
    · simp only [mapGet, if_neg h0] at h
      simp [mapSet, h0, ih h]

/-! ### Counting occurrences of a subscription id -/

theorem countId_eq_zero_iff (id : String) (l : List Subscription) :
    countId id l = 0 ↔ ∀ s ∈ l, s.ID ≠ id := by
  simp [countId, List.countP_eq_zero]

theorem countIdAt_eq_zero (id : String) (m : SubsMap) (k : String)
    (hfresh : ∀ p ∈ m, ∀ s ∈ p.2, s.ID ≠ id) : countIdAt id m k = 0 := by
  unfold countIdAt
  cases hget : mapGet m k with
  | none => rfl
  | some v =>
    simpa using (countId_eq_zero_iff id v).2 (hfresh (k, v) (mapGet_mem m k v hget))

theorem countIdAt_subscribeStep (m : SubsMap) (e k : String) (sub : Subscription)
    (id : String) :
    countIdAt id (subscribeStep m e sub) k =
      countIdAt id m k + (if e = k ∧ sub.ID = id then 1 else 0) := by
  unfold countIdAt subscribeStep
  rw [mapGet_mapSet]
  by_cases h : e = k
  · subst h
    simp only [if_pos rfl, Option.getD_some, countId, List.countP_append, true_and]
    by_cases hid : sub.ID = id
    · simp [hid, List.countP_cons]
    · simp [List.countP_cons, hid]
  · simp [h]

theorem countIdAt_subscribe_fold (sub : Subscription) (id : String)
    (events : List String) :
    ∀ (m : SubsMap) (k : String),
      countIdAt id (events.foldl (fun acc e => subscribeStep acc e sub) m) k =
        countIdAt id m k + (if sub.ID = id then events.count k else 0) := by
  induction events with
  | nil => simp
  | cons e rest ih =>
    intro m k
    simp only [List.foldl_cons, ih, countIdAt_subscribeStep]
    by_cases hid : sub.ID = id
    · by_cases hek : e = k
      · subst hek
        simp [hid, List.count_cons]
        omega
      · simp only [if_pos hid, List.count_cons]
        simp [hek, hid]
    · simp [hid]

theorem countIdAt_subscribe (m : SubsMap) (events : List String) (id k : String) :
    countIdAt id (subscribe m events id).1 k = countIdAt id m k + events.count k := by
  unfold subscribe
  simpa using countIdAt_subscribe_fold { ID := id, Events := events } id events m k

theorem removeFirstById_sublist (id : String) (l : List Subscription) :
    (removeFirstById id l).Sublist l := by
  induction l with
  | nil => exact List.Sublist.refl _
  | cons s rest ih =>
    by_cases h : s.ID = id
    · simp only [removeFirstById, if_pos h]
      exact List.sublist_cons_self _ _
    · simp only [removeFirstById, if_neg h]
      exact ih.cons₂ s

theorem countId_removeFirstById (id : String) (l : List Subscription) :
    countId id (removeFirstById id l) = countId id l - 1 := by
  induction l with
  | nil => rfl
  | cons s rest ih =>
    by_cases h : s.ID = id
    · simp [removeFirstById, h, countId, List.countP_cons]
    · simp only [removeFirstById, if_neg h, countId, List.countP_cons] at ih ⊢
      simp [h, ih]

theorem removeFirstById_noop (id : String) (l : List Subscription)
    (h : ∀ s ∈ l, s.ID ≠ id) : removeFirstById id l = l := by
  induction l with
  | nil => rfl
  | cons s rest ih =>
    simp only [removeFirstById, if_neg (h s (List.mem_cons_self _ _))]
    exact congrArg _ (ih fun s hs => h s (List.mem_cons_of_mem _ hs))

theorem keys_nodup_unsubscribeStep (m : SubsMap) (id e : String)
    (hnd : (keys m).Nodup) : (keys (unsubscribeStep m id e)).Nodup := by
  unfold unsubscribeStep
  cases mapGet m e with
  | none => exact hnd
  | some subs =>
    by_cases h : (removeFirstById id subs).isEmpty
    · simpa [h] using keys_nodup_mapDel m e hnd
    · simpa [h] using keys_nodup_mapSet m e _ hnd

theorem countIdAt_unsubscribeStep (m : SubsMap) (id e k : String)
    (hnd : (keys m).Nodup) :
    countIdAt id (unsubscribeStep m id e) k =
      countIdAt id m k - (if e = k then 1 else 0) := by
  unfold unsubscribeStep
  cases hget : mapGet m e with
  | none =>
    by_cases h : e = k
    · subst h
      simp [countIdAt, hget, countId]
    · simp [h]
  | some subs =>
    dsimp only
    by_cases hemp : (removeFirstById id subs).isEmpty
    · rw [if_pos hemp]
      have hsub0 : countId id (removeFirstById id subs) = 0 := by
        rw [List.isEmpty_iff] at hemp
        simp [hemp, countId]
      have h3 : countId id subs - 1 = 0 := by
        rw [← countId_removeFirstById id subs]
        exact hsub0
      by_cases h : e = k
      · subst h
        have h1 : countIdAt id (mapDel m e) e = 0 := by
          simp [countIdAt, mapGet_mapDel m e e hnd, countId]
        have h2 : countIdAt id m e = countId id subs := by
          simp [countIdAt, hget]
        rw [h1, h2]
        simp [h3]
      · simp [countIdAt, mapGet_mapDel m e k hnd, h]
    · rw [if_neg hemp]
      by_cases h : e = k
      · subst h
        simp [countIdAt, mapGet_mapSet, hget, countId_removeFirstById]
      · simp [countIdAt, mapGet_mapSet, h]

theorem countIdAt_unsubscribe_fold (id : String) (events : List String) :
    ∀ (m : SubsMap) (k : String), (keys m).Nodup →
      countIdAt id (events.foldl (fun acc e => unsubscribeStep acc id e) m) k =
        countIdAt id m k - events.count k := by
  induction events with
  | nil => simp
  | cons e rest ih =>
    intro m k hnd
    simp only [List.foldl_cons, ih _ _ (keys_nodup_unsubscribeStep m id e hnd),
      countIdAt_unsubscribeStep m id e k hnd, List.count_cons]
    by_cases h : e = k
    · simp [h]
      omega
    · simp only [List.count_cons] at *
      simp [h, fun hc => h (by simpa using hc)]

theorem keys_nodup_subscribe_fold (sub : Subscription) (events : List String) :
    ∀ m : SubsMap, (keys m).Nodup →
      (keys (events.foldl (fun acc e => subscribeStep acc e sub) m)).Nodup := by
  induction events with
  | nil => exact fun m h => h
  | cons e rest ih =>
    intro m hnd
    exact ih _ (keys_nodup_mapSet m e _ hnd)

theorem keys_nodup_unsubscribe_fold (id : String) (events : List String) :
    ∀ m : SubsMap, (keys m).Nodup →
      (keys (events.foldl (fun acc e => unsubscribeStep acc id e) m)).Nodup := by
  induction events with
  | nil => exact fun m h => h
  | cons e rest ih =>
    intro m hnd
    exact ih _ (keys_nodup_unsubscribeStep m id e hnd)

theorem unsubscribeStep_noop (m : SubsMap) (id e : String)
    (hfresh : ∀ p ∈ m, ∀ s ∈ p.2, s.ID ≠ id)
    (hne : ∀ p ∈ m, p.2 ≠ []) : unsubscribeStep m id e = m := by
  unfold unsubscribeStep
  cases hget : mapGet m e with
  | none => rfl
  | some subs =>
    have hmem : (e, subs) ∈ m := mapGet_mem m e subs hget
    have hrm : removeFirstById id subs = subs :=
      removeFirstById_noop id subs (hfresh _ hmem)
    simp only [hrm]
    have hie : subs.isEmpty = false := by
      cases subs with
      | nil => exact absurd rfl (hne _ hmem)
      | cons a l => rfl
    simp only [hie, Bool.false_eq_true, if_false]
    exact mapSet_self m e subs hget

/-! ### Registry invariant preservation -/

theorem regInv_subscribeStep (m : SubsMap) (e : String) (sub : Subscription)
    (h : RegInvariant m) (he : e ∈ sub.Events) : RegInvariant (subscribeStep m e sub) := by
  unfold subscribeStep
  cases hget : mapGet m e with
  | none =>
    simp only [Option.getD_none, List.nil_append]
    constructor
    · intro p hp s hs
      rcases mem_mapSet m e [sub] p hp with hpe | hpm
      · subst hpe
        have hss : s = sub := by simpa using hs
        subst hss
        exact he
      · exact h.1 p hpm s hs
    · intro p hp
      rcases mem_mapSet m e [sub] p hp with hpe | hpm
      · subst hpe
        simp
      · exact h.2 p hpm
  | some l =>
    simp only [Option.getD_some]
    constructor
    · intro p hp s hs
      rcases mem_mapSet m e (l ++ [sub]) p hp with hpe | hpm
      · subst hpe
        rcases List.mem_append.1 hs with hso | hss
        · exact h.1 (e, l) (mapGet_mem m e l hget) s hso
        · have hss' : s = sub := by simpa using hss
          subst hss'
          exact he
      · exact h.1 p hpm s hs
    · intro p hp
      rcases mem_mapSet m e (l ++ [sub]) p hp with hpe | hpm
      · subst hpe
        simp
      · exact h.2 p hpm

theorem regInv_subscribe_fold (sub : Subscription) (events : List String) :
    ∀ m : SubsMap, RegInvariant m → (∀ e ∈ events, e ∈ sub.Events) →
      RegInvariant (events.foldl (fun acc e => subscribeStep acc e sub) m) := by
  induction events with
  | nil => exact fun m h _ => h
  | cons e rest ih =>
    intro m h hev
    simp only [List.foldl_cons]
    exact ih _ (regInv_subscribeStep m e sub h (hev e (List.mem_cons_self _ _)))
      (fun e' he' => hev e' (List.mem_cons_of_mem _ he'))

theorem regInv_subscribe (m : SubsMap) (events : List String) (id : String)
    (h : RegInvariant m) : RegInvariant (subscribe m events id).1 := by
  unfold subscribe
  exact regInv_subscribe_fold { ID := id, Events := events } events m h (fun e he => he)

theorem regInv_unsubscribeStep (m : SubsMap) (id e : String) (h : RegInvariant m) :
    RegInvariant (unsubscribeStep m id e) := by
  unfold unsubscribeStep
  cases hget : mapGet m e with
  | none => exact h
  | some subs =>
    dsimp only
    by_cases hemp : (removeFirstById id subs).isEmpty
    · rw [if_pos hemp]
      exact ⟨fun p hp s hs => h.1 p (mem_mapDel m e p hp) s hs,
             fun p hp => h.2 p (mem_mapDel m e p hp)⟩
    · rw [if_neg hemp]
      constructor
      · intro p hp s hs
        rcases mem_mapSet m e _ p hp with hpe | hpm
        · subst hpe
          have hs' : s ∈ subs := (removeFirstById_sublist id subs).mem hs
          exact h.1 (e, subs) (mapGet_mem m e subs hget) s hs'
        · exact h.1 p hpm s hs
      · intro p hp
        rcases mem_mapSet m e _ p hp with hpe | hpm
        · subst hpe
          exact fun hc => hemp (List.isEmpty_iff.2 hc)
        · exact h.2 p hpm

theorem regInv_unsubscribe (m : SubsMap) (id : String) (events : List String)
    (h : RegInvariant m) : RegInvariant (unsubscribe m id events) := by
  unfold unsubscribe
  induction events generalizing m with
  | nil => exact h
  | cons e rest ih =>
    simp only [List.foldl_cons]
    exact ih _ (regInv_unsubscribeStep m id e h)

/-! ### The registry claims -/

/-- C7 counterexample: `Subscribe` does NOT deduplicate repeated event types in
its input list — subscribing to `["A", "A"]` registers the same subscription
twice under `"A"`, so it does not appear "at most once in any type's list". -/
theorem c7_counterexample :
    ¬ countId "x" ((mapGet (subscribe [] ["A", "A"] "x").1 "A").getD []) ≤ 1 := by
  decide

/-- C7 (amended): `Subscribe` creates the subscription handle carrying the
given fresh id and the given event list, and appends it to the index entry of
each listed type once per occurrence of that type in the input list (duplicates
are NOT collapsed): for a fresh id the number of occurrences of the new
subscription under any key `k` equals the number of occurrences of `k` in the
input list. -/
theorem c7_subscribe_per_occurrence (m : SubsMap) (events : List String) (id : String)
    (hfresh : ∀ p ∈ m, ∀ s ∈ p.2, s.ID ≠ id) :
    (∀ k, countIdAt id (subscribe m events id).1 k = events.count k)
    ∧ (subscribe m events id).2 = { ID := id, Events := events } := by
  refine ⟨fun k => ?_, rfl⟩
  rw [countIdAt_subscribe m events id k, countIdAt_eq_zero id m k hfresh, Nat.zero_add]

/-- Witness for `c7_subscribe_per_occurrence` at a concrete registry. -/
theorem c7_witness :
    (∀ p ∈ ([("B", [{ ID := "y", Events := ["B"] }])] : SubsMap), ∀ s ∈ p.2, s.ID ≠ "x")
    ∧ ((∀ k, countIdAt "x"
          (subscribe [("B", [{ ID := "y", Events := ["B"] }])] ["A", "A", "C"] "x").1 k =
            (["A", "A", "C"] : List String).count k)
       ∧ (subscribe [("B", [{ ID := "y", Events := ["B"] }])] ["A", "A", "C"] "x").2 =
            { ID := "x", Events := ["A", "A", "C"] }) :=
  ⟨by decide, c7_subscribe_per_occurrence _ _ _ (by decide)⟩

/-- C8: starting from a well-formed registry in which the fresh id does not
occur, `Subscribe` immediately followed by `Unsubscribe` with the returned id
and the same type list leaves no entry containing that id anywhere in the
index; and `Unsubscribe` of an id that is absent for every listed type is a
no-op on the registry. -/
theorem c8_subscribe_unsubscribe (m : SubsMap) (events : List String) (id : String)
    (hnd : (keys m).Nodup)
    (hfresh : ∀ p ∈ m, ∀ s ∈ p.2, s.ID ≠ id)
    (hne : ∀ p ∈ m, p.2 ≠ []) :
    (∀ p ∈ unsubscribe (subscribe m events id).1 id events, ∀ s ∈ p.2, s.ID ≠ id)
    ∧ unsubscribe m id events = m := by
  constructor
  · have hnd1 : (keys (subscribe m events id).1).Nodup := by
      unfold subscribe
      exact keys_nodup_subscribe_fold _ events m hnd
    have hnd2 : (keys (unsubscribe (subscribe m events id).1 id events)).Nodup := by
      unfold unsubscribe
      exact keys_nodup_unsubscribe_fold id events _ hnd1
    have hcount : ∀ k, countIdAt id (unsubscribe (subscribe m events id).1 id events) k = 0 := by
      intro k
      unfold unsubscribe
      rw [countIdAt_unsubscribe_fold id events _ k hnd1, countIdAt_subscribe m events id k,
        countIdAt_eq_zero id m k hfresh]
      omega
    intro p hp s hs
    obtain ⟨k, v⟩ := p
    have hget : mapGet (unsubscribe (subscribe m events id).1 id events) k = some v :=
      mem_mapGet _ k v hnd2 hp
    have h0 : countId id v = 0 := by
      have hc := hcount k
      unfold countIdAt at hc
      rw [hget] at hc
      simpa using hc
    exact (countId_eq_zero_iff id v).1 h0 s hs
  · have main : ∀ evs : List String,
        evs.foldl (fun acc e => unsubscribeStep acc id e) m = m := by
      intro evs
      induction evs with
      | nil => rfl
      | cons e rest ih =>
        simp only [List.foldl_cons, unsubscribeStep_noop m id e hfresh hne]
        exact ih
    exact main events

/-- Witness for `c8_subscribe_unsubscribe` at a concrete registry. -/
theorem c8_witness :
    ((keys ([("B", [{ ID := "y", Events := ["B"] }])] : SubsMap)).Nodup
      ∧ (∀ p ∈ ([("B", [{ ID := "y", Events := ["B"] }])] : SubsMap), ∀ s ∈ p.2, s.ID ≠ "x")
      ∧ (∀ p ∈ ([("B", [{ ID := "y", Events := ["B"] }])] : SubsMap), p.2 ≠ []))
    ∧ ((∀ p ∈ unsubscribe
          (subscribe [("B", [{ ID := "y", Events := ["B"] }])] ["A", "A", "B"] "x").1
          "x" ["A", "A", "B"], ∀ s ∈ p.2, s.ID ≠ "x")
       ∧ unsubscribe [("B", [{ ID := "y", Events := ["B"] }])] "x" ["A", "A", "B"] =
          [("B", [{ ID := "y", Events := ["B"] }])]) :=
  ⟨⟨by decide, by decide, by decide⟩,
    c8_subscribe_unsubscribe _ _ _ (by decide) (by decide) (by decide)⟩

/-- C9: after any sequence of `Subscribe`/`Unsubscribe` operations starting
from the fresh poller's empty map, every subscription referenced under an
event type lists that type in its own `Events`, and no event type maps to an
empty subscription list. -/
theorem c9_registry_invariant (ops : List Op) : RegInvariant (runOps ops) := by
  have main : ∀ (l : List Op) (m : SubsMap),
      RegInvariant m → RegInvariant (l.foldl applyOp m) := by
    intro l
    induction l with
    | nil => exact fun m h => h
    | cons op rest ih =>
      intro m h
      simp only [List.foldl_cons]
      apply ih
      cases op with
      | subscribeOp events id => exact regInv_subscribe m events id h
      | unsubscribeOp id events => exact regInv_unsubscribe m id events h
  exact main ops [] ⟨by simp, by simp⟩

/-- Witness for `c9_registry_invariant` at a concrete operation sequence. -/
theorem c9_witness :
    RegInvariant (runOps [Op.subscribeOp ["A", "B"] "x", Op.subscribeOp ["A"] "y",
      Op.unsubscribeOp "x" ["A", "B"]]) :=
  c9_registry_invariant _

/-! ### Tick-level helper lemmas -/

@[simp] theorem Trace.append_def (a b : Trace) :
    a ++ b = ⟨a.windows ++ b.windows, a.queries ++ b.queries, a.sends ++ b.sends⟩ := rfl

@[simp] theorem ctxNever_isCancelled (t : Nat) : Ctx.isCancelled ctxNever t = false := rfl

@[simp] theorem ctxNever_err (t : Nat) : Ctx.err ctxNever t = none := rfl

theorem pollEvents_ok (p : EventPoller) (cl : TickClient) (ctx : Ctx)
    (s : Nat) (hdr : Header) (ty : String) (t : Nat)
    (h : ∃ evs, cl.eventsForRange ty s hdr.height = .ok evs) :
    ∃ t' sends, pollEvents p cl ctx s hdr ty t =
      (.ok (), t', ⟨[], [(ty, s, hdr.height)], sends⟩) := by
  obtain ⟨evs, hevs⟩ := h
  refine ⟨(sendBlocks p.subscriptions ctx evs t).2.1,
    (sendBlocks p.subscriptions ctx evs t).2.2, ?_⟩
  simp [pollEvents, hevs]

theorem pollEvents_error (p : EventPoller) (cl : TickClient) (ctx : Ctx)
    (s : Nat) (hdr : Header) (ty : String) (t : Nat) (e : GoError)
    (h : cl.eventsForRange ty s hdr.height = .error e) :
    pollEvents p cl ctx s hdr ty t = (.error e, t, ⟨[], [(ty, s, hdr.height)], []⟩) := by
  simp [pollEvents, h]

theorem pollTypes_ok (p : EventPoller) (cl : TickClient) (ctx : Ctx)
    (s : Nat) (hdr : Header)
    (hev : ∀ ty a b, ∃ evs, cl.eventsForRange ty a b = .ok evs) :
    ∀ (types : List String) (t : Nat), ∃ t' sends,
      pollTypes p cl ctx types s hdr t =
        (none, t', ⟨[], types.map (fun ty => (ty, s, hdr.height)), sends⟩) := by
  intro types
  induction types with
  | nil => exact fun t => ⟨t, [], rfl⟩
  | cons ty rest ih =>
    intro t
    obtain ⟨t1, sends1, h1⟩ := pollEvents_ok p cl ctx s hdr ty t (hev ty s hdr.height)
    obtain ⟨t2, sends2, h2⟩ := ih t1
    refine ⟨t2, sends1 ++ sends2, ?_⟩
    simp [pollTypes, h1, h2]

theorem pollTypes_second_fails (p : EventPoller) (cl : TickClient) (ctx : Ctx)
    (a b : String) (s : Nat) (hdr : Header) (t : Nat) (er : GoError)
    (hstop : p.PollingErrorBehavior = .ErrorBehaviorStop)
    (hnc : ∀ u, ctx.isCancelled u = false)
    (hA : ∃ evs, cl.eventsForRange a s hdr.height = .ok evs)
    (hB : cl.eventsForRange b s hdr.height = .error er) :
    (pollTypes p cl ctx [a, b] s hdr t).1 = some .abort := by
  obtain ⟨t1, sends1, h1⟩ := pollEvents_ok p cl ctx s hdr a t hA
  simp [pollTypes, h1, pollEvents_error p cl ctx s hdr b t1 er hB, hnc, hstop]

/-! ### Properties of the spec-side chunking recurrence -/

@[simp] theorem windowHeights_mk (a b : Nat) :
    windowHeights (a, b) = List.range' a (b + 1 - a) := rfl

theorem specWindows_nil (last head : Nat) (h : ¬ last < head) :
    specWindows last head = [] := by
  rw [specWindows]
  simp [h]

theorem specWindows_cover (head : Nat) :
    ∀ last, (specWindows last head).flatMap windowHeights =
      List.range' (last + 1) (head - last) := by
  have main : ∀ n last, head - last ≤ n →
      (specWindows last head).flatMap windowHeights =
        List.range' (last + 1) (head - last) := by
    intro n
    induction n with
    | zero =>
      intro last h
      have h0 : head - last = 0 := by omega
      have hnl : ¬ last < head := by omega
      rw [specWindows_nil last head hnl, h0]
      simp
    | succ n ih =>
      intro last h
      by_cases hlt : last < head
      · rw [specWindows]
        simp only [if_pos hlt]
        rw [List.flatMap_cons]
        have he1 : last + 1 ≤ min (last + DefaultMaxHeightRange) head := by
          simp only [DefaultMaxHeightRange]
          omega
        have he2 : min (last + DefaultMaxHeightRange) head ≤ head := by omega
        have hrec : head - min (last + DefaultMaxHeightRange) head ≤ n := by
          simp only [DefaultMaxHeightRange] at *
          omega
        rw [ih (min (last + DefaultMaxHeightRange) head) hrec]
        simp only [windowHeights_mk]
        have h1 : min (last + DefaultMaxHeightRange) head + 1 - (last + 1) =
            min (last + DefaultMaxHeightRange) head - last := by omega
        rw [h1]
        have happ := List.range'_append (last + 1)
          (min (last + DefaultMaxHeightRange) head - last)
          (head - min (last + DefaultMaxHeightRange) head) 1
        simp only [Nat.one_mul] at happ
        have h2 : last + 1 + (min (last + DefaultMaxHeightRange) head - last) =
            min (last + DefaultMaxHeightRange) head + 1 := by omega
        rw [h2] at happ
        rw [happ]
        congr 1
        omega
      · rw [specWindows_nil last head hlt]
        have h0 : head - last = 0 := by omega
        rw [h0]
        simp
  exact fun last => main (head - last) last (le_refl _)

theorem specWindows_bounds (head : Nat) :
    ∀ last, ∀ w ∈ specWindows last head,
      w.1 ≤ w.2 ∧ w.2 + 1 - w.1 ≤ DefaultMaxHeightRange := by
  have main : ∀ n last, head - last ≤ n → ∀ w ∈ specWindows last head,
      w.1 ≤ w.2 ∧ w.2 + 1 - w.1 ≤ DefaultMaxHeightRange := by
    intro n
    induction n with
    | zero =>
      intro last h w hw
      rw [specWindows_nil last head (by omega)] at hw
      simp at hw
    | succ n ih =>
      intro last h w hw
      by_cases hlt : last < head
      · rw [specWindows] at hw
        simp only [if_pos hlt] at hw
        rcases List.mem_cons.1 hw with hw1 | hw2
        · subst hw1
          refine ⟨?_, ?_⟩
          · show last + 1 ≤ min (last + DefaultMaxHeightRange) head
            simp only [DefaultMaxHeightRange]
            omega
          · show min (last + DefaultMaxHeightRange) head + 1 - (last + 1) ≤
              DefaultMaxHeightRange
            simp only [DefaultMaxHeightRange]
            omega
        · exact ih (min (last + DefaultMaxHeightRange) head)
            (by simp only [DefaultMaxHeightRange] at *; omega) w hw2
      · rw [specWindows_nil last head hlt] at hw
        simp at hw
  exact fun last w hw => main (head - last) last (le_refl _) w hw

/-! ### The windowing loop under a well-behaved client -/

set_option maxRecDepth 8000 in
set_option maxHeartbeats 1600000 in
theorem checkSubsLoop_ok (p : EventPoller) (cl : TickClient) (ctx : Ctx) (head : Nat)
    (hbh : ∀ n, cl.headerByHeight n = none)
    (hev : ∀ ty a b, ∃ evs, cl.eventsForRange ty a b = .ok evs) :
    ∀ (last t : Nat), last < head → ∃ t' qs sends,
      checkSubsLoop p cl ctx head last t =
        (.ok ⟨head⟩, t', ⟨specWindows last head, qs, sends⟩) := by
  have main : ∀ (n last t : Nat), head - last ≤ n → last < head → ∃ t' qs sends,
      checkSubsLoop p cl ctx head last t =
        (.ok ⟨head⟩, t', ⟨specWindows last head, qs, sends⟩) := by
    intro n
    induction n with
    | zero =>
      intro last t hle hlt
      exfalso
      omega
    | succ n ih =>
      intro last t hle hlt
      rw [checkSubsLoop.eq_def]
      by_cases hgt : head > last + DefaultMaxHeightRange
      · rw [dif_pos hgt, hbh (last + DefaultMaxHeightRange)]
        obtain ⟨t1, sends1, hpt⟩ := pollTypes_ok p cl ctx (last + 1)
          ⟨last + DefaultMaxHeightRange⟩ hev (keys p.subscriptions) t
        obtain ⟨t2, qs2, sends2, hrec⟩ := ih (last + DefaultMaxHeightRange) t1
          (by simp only [DefaultMaxHeightRange] at *; omega)
          (by simp only [DefaultMaxHeightRange] at *; omega)
        refine ⟨t2,
          (keys p.subscriptions).map
            (fun ty => (ty, last + 1, last + DefaultMaxHeightRange)) ++ qs2,
          sends1 ++ sends2, ?_⟩
        rw [specWindows]
        have hmin : min (last + DefaultMaxHeightRange) head = last + DefaultMaxHeightRange :=
          Nat.min_eq_left (le_of_lt hgt)
        simp [checkSubsIter, checkSubsCont, hpt, hrec, hmin, hlt]
      · rw [dif_neg hgt]
        obtain ⟨t1, sends1, hpt⟩ := pollTypes_ok p cl ctx (last + 1) ⟨head⟩ hev
          (keys p.subscriptions) t
        refine ⟨t1, (keys p.subscriptions).map (fun ty => (ty, last + 1, head)),
          sends1, ?_⟩
        rw [specWindows]
        have hmin : min (last + DefaultMaxHeightRange) head = head :=
          Nat.min_eq_right (by omega)
        simp [checkSubsIter, checkSubsLast, hpt, hmin, hlt,
          specWindows_nil head head (lt_irrefl head)]
  exact fun last t hlt => main (head - last) last t (le_refl _) hlt

@[simp] theorem Trace.nil_append (x : Trace) : Trace.nil ++ x = x := rfl

@[simp] theorem Trace.nil_windows : Trace.nil.windows = [] := rfl

@[simp] theorem Trace.nil_queries : Trace.nil.queries = [] := rfl

@[simp] theorem Trace.nil_sends : Trace.nil.sends = [] := rfl

@[simp] theorem Trace.eta (x : Trace) :
    (⟨x.windows, x.queries, x.sends⟩ : Trace) = x := rfl

@[simp] theorem checkSubsIter_fst (p : EventPoller) (cl : TickClient) (ctx : Ctx)
    (lastHeight : Nat) (hdr : Header) (t : Nat) :
    (checkSubsIter p cl ctx lastHeight hdr t).1 =
      (pollTypes p cl ctx (keys p.subscriptions) (lastHeight + 1) hdr t).1 := rfl

theorem checkSubsCont_error (r : Option GoError × Nat × Trace)
    (rec : Nat → Except GoError Header × Nat × Trace) (e : GoError)
    (h : r.1 = some e) : (checkSubsCont r rec).1 = .error e := by
  rcases r with ⟨r1, rt, rtr⟩
  dsimp only at h
  subst h
  rfl

theorem checkSubsLast_error (latestHeight : Nat) (r : Option GoError × Nat × Trace)
    (e : GoError) (h : r.1 = some e) :
    (checkSubsLast latestHeight r).1 = .error e := by
  rcases r with ⟨r1, rt, rtr⟩
  dsimp only at h
  subst h
  rfl

theorem checkSubsLoop_error (p : EventPoller) (cl : TickClient) (ctx : Ctx)
    (head : Nat) (e : GoError)
    (hbh : ∀ n, cl.headerByHeight n = none)
    (hpt : ∀ (hdr : Header) (s t' : Nat),
      (pollTypes p cl ctx (keys p.subscriptions) s hdr t').1 = some e) :
    ∀ last t, (checkSubsLoop p cl ctx head last t).1 = .error e := by
  intro last t
  rw [checkSubsLoop.eq_def]
  by_cases hgt : head > last + DefaultMaxHeightRange
  · rw [dif_pos hgt, hbh (last + DefaultMaxHeightRange)]
    exact checkSubsCont_error _ _ e
      ((checkSubsIter_fst p cl ctx last ⟨last + DefaultMaxHeightRange⟩ t).trans
        (hpt ⟨last + DefaultMaxHeightRange⟩ (last + 1) t))
  · rw [dif_neg hgt]
    exact checkSubsLast_error head _ e
      ((checkSubsIter_fst p cl ctx last ⟨head⟩ t).trans (hpt ⟨head⟩ (last + 1) t))

/-! ### The chunking claims -/

/-- C2: when `headHeight > lastHeight` and the client's queries succeed, one
tick iterates exactly the windows of the chunking recurrence
`(last+1, min(last+maxRange, head))`, repeating with the lower bound after the
previous window's end; those windows cover exactly `[last+1, head]` with no
gaps and no overlaps, each window is at most `DefaultMaxHeightRange` (250)
long, and the tick returns the head header. -/
theorem c2_chunking (p : EventPoller) (cl : TickClient) (ctx : Ctx)
    (last head t : Nat)
    (hlatest : cl.latestHeader = .ok ⟨head⟩)
    (hbh : ∀ n, cl.headerByHeight n = none)
    (hev : ∀ ty a b, ∃ evs, cl.eventsForRange ty a b = .ok evs)
    (hlt : last < head) :
    (checkSubscriptions p cl ctx ⟨last⟩ t).1 = .ok ⟨head⟩
    ∧ (checkSubscriptions p cl ctx ⟨last⟩ t).2.2.windows = specWindows last head
    ∧ ((checkSubscriptions p cl ctx ⟨last⟩ t).2.2.windows).flatMap windowHeights
        = List.range' (last + 1) (head - last)
    ∧ ∀ w ∈ (checkSubscriptions p cl ctx ⟨last⟩ t).2.2.windows,
        w.1 ≤ w.2 ∧ w.2 + 1 - w.1 ≤ DefaultMaxHeightRange := by
  obtain ⟨t', qs, sends, hloop⟩ := checkSubsLoop_ok p cl ctx head hbh hev last t hlt
  have hcs : checkSubscriptions p cl ctx ⟨last⟩ t =
      (.ok ⟨head⟩, t', ⟨specWindows last head, qs, sends⟩) := by
    unfold checkSubscriptions
    rw [hlatest]
    exact hloop
  rw [hcs]
  exact ⟨rfl, rfl, specWindows_cover head last,
    fun w hw => specWindows_bounds head last w hw⟩

/-- Witness for `c2_chunking`: `last = 100`, `head = 600` yields exactly the
windows `(101, 350)` and `(351, 600)`. -/
theorem c2_witness :
    ((okClient 600 []).latestHeader = .ok ⟨600⟩
      ∧ (∀ n, (okClient 600 []).headerByHeight n = none)
      ∧ (∀ ty a b, ∃ evs, (okClient 600 []).eventsForRange ty a b = .ok evs)
      ∧ 100 < 600)
    ∧ (checkSubscriptions (pollerOf .ErrorBehaviorContinue []) (okClient 600 [])
        ctxNever ⟨100⟩ 0).2.2.windows = specWindows 100 600
    ∧ specWindows 100 600 = [(101, 350), (351, 600)] := by
  refine ⟨⟨rfl, fun n => rfl, fun ty a b => ⟨[], rfl⟩, by decide⟩, ?_, ?_⟩
  · exact (c2_chunking (pollerOf .ErrorBehaviorContinue []) (okClient 600 []) ctxNever
      100 600 0 rfl (fun n => rfl) (fun ty a b => ⟨[], rfl⟩) (by decide)).2.1
  · have h1 : specWindows 350 600 = [(351, 600)] := by
      rw [specWindows]
      have hm : min (350 + DefaultMaxHeightRange) 600 = 600 := by decide
      simp [hm, specWindows_nil 600 600 (lt_irrefl 600)]
    rw [specWindows]
    have h2 : min (100 + DefaultMaxHeightRange) 600 = 350 := by decide
    simp [h1, h2]

/-- C3 counterexample: with `head = last = 100` and one subscription on "A",
the tick does NOT produce zero windows — it issues the query `("A", 101, 100)`
over the inverted range; and with `head = 50 < last = 100` the tick reports the
head header `50`, so the reference height would move backwards instead of
staying unchanged. -/
theorem c3_counterexample :
    (checkSubscriptions c3Poller (okClient 100 []) ctxNever ⟨100⟩ 0).2.2.queries
      = [("A", 101, 100)]
    ∧ (checkSubscriptions c3Poller (okClient 50 []) ctxNever ⟨100⟩ 0).1 = .ok ⟨50⟩ := by
  constructor
  · have hgt : ¬ (100 : Nat) > 100 + DefaultMaxHeightRange := by decide
    have hcs : checkSubscriptions c3Poller (okClient 100 []) ctxNever ⟨100⟩ 0 =
        checkSubsLast 100 (checkSubsIter c3Poller (okClient 100 []) ctxNever 100 ⟨100⟩ 0) := by
      show checkSubsLoop c3Poller (okClient 100 []) ctxNever 100 100 0 = _
      rw [checkSubsLoop.eq_def, dif_neg hgt]
    rw [hcs]
    rfl
  · have hgt : ¬ (50 : Nat) > 100 + DefaultMaxHeightRange := by decide
    have hcs : checkSubscriptions c3Poller (okClient 50 []) ctxNever ⟨100⟩ 0 =
        checkSubsLast 50 (checkSubsIter c3Poller (okClient 50 []) ctxNever 100 ⟨50⟩ 0) := by
      show checkSubsLoop c3Poller (okClient 50 []) ctxNever 50 100 0 = _
      rw [checkSubsLoop.eq_def, dif_neg hgt]
    rw [hcs]
    rfl

/-- C3 (amended): when `headHeight ≤ lastHeight` the tick still runs exactly
one iteration, with the degenerate window `(last+1, head)` whose start exceeds
its end, and issues one query over that inverted range per subscribed type;
the tick reports the head header, so the reference value is unchanged when
`head = last` but is the lower `head` when `head < last`. -/
theorem c3_degenerate_window (p : EventPoller) (cl : TickClient) (ctx : Ctx)
    (last head t : Nat)
    (hlatest : cl.latestHeader = .ok ⟨head⟩)
    (hev : ∀ ty a b, ∃ evs, cl.eventsForRange ty a b = .ok evs)
    (hle : head ≤ last) :
    (checkSubscriptions p cl ctx ⟨last⟩ t).1 = .ok ⟨head⟩
    ∧ (checkSubscriptions p cl ctx ⟨last⟩ t).2.2.windows = [(last + 1, head)]
    ∧ (checkSubscriptions p cl ctx ⟨last⟩ t).2.2.queries
        = (keys p.subscriptions).map (fun ty => (ty, last + 1, head)) := by
  obtain ⟨t1, sends1, hpt⟩ := pollTypes_ok p cl ctx (last + 1) ⟨head⟩ hev
    (keys p.subscriptions) t
  have hgt : ¬ head > last + DefaultMaxHeightRange := by
    simp only [DefaultMaxHeightRange]
    omega
  have hcs : checkSubscriptions p cl ctx ⟨last⟩ t =
      checkSubsLast head (checkSubsIter p cl ctx last ⟨head⟩ t) := by
    unfold checkSubscriptions
    rw [hlatest]
    show checkSubsLoop p cl ctx head last t = _
    rw [checkSubsLoop.eq_def, dif_neg hgt]
  rw [hcs]
  simp [checkSubsIter, checkSubsLast, hpt]

/-- Witness for `c3_degenerate_window`: `last = head = 100` — one inverted
window `(101, 100)`, queried for the one subscribed type, height reported
unchanged. -/
theorem c3_witness :
    ((okClient 100 []).latestHeader = .ok ⟨100⟩
      ∧ (∀ ty a b, ∃ evs, (okClient 100 []).eventsForRange ty a b = .ok evs)
      ∧ (100 : Nat) ≤ 100)
    ∧ ((checkSubscriptions c3Poller (okClient 100 []) ctxNever ⟨100⟩ 5).1 = .ok ⟨100⟩
      ∧ (checkSubscriptions c3Poller (okClient 100 []) ctxNever ⟨100⟩ 5).2.2.windows
          = [(101, 100)]
      ∧ (checkSubscriptions c3Poller (okClient 100 []) ctxNever ⟨100⟩ 5).2.2.queries
          = (keys c3Poller.subscriptions).map (fun ty => (ty, 101, 100))) :=
  ⟨⟨rfl, fun ty a b => ⟨[], rfl⟩, by decide⟩,
    c3_degenerate_window c3Poller (okClient 100 []) ctxNever 100 100 5 rfl
      (fun ty a b => ⟨[], rfl⟩) (by decide)⟩

/-! ### The error-policy and cancellation claims -/

/-- C4: under the stop policy, when within a tick the fetch for the second of
two subscribed types fails (for any heights, any error, with the context never
cancelled), the run loop returns the distinguished abort error `ErrAbort`,
holding the reference height at its pre-tick value. -/
theorem c4_stop_aborts (a b : String) (hab : a ≠ b)
    (la lb : List Subscription) (evs : List BlockEvents) (er : GoError)
    (last head i t fuel : Nat) :
    (runLoop
      { StartHeight := 0, PollingErrorBehavior := .ErrorBehaviorStop,
        subscriptions := [(a, la), (b, lb)] }
      (fun _ =>
        { latestHeader := .ok ⟨head⟩
          headerByHeight := fun _ => none
          eventsForRange := fun ty _ _ => if ty = b then .error er else .ok evs })
      ctxNever ⟨last⟩ i t (fuel + 1)).1 = .returned (some .abort) last := by
  have hpt : ∀ (hdr : Header) (s t' : Nat),
      (pollTypes
        { StartHeight := 0, PollingErrorBehavior := .ErrorBehaviorStop,
          subscriptions := [(a, la), (b, lb)] }
        { latestHeader := .ok ⟨head⟩
          headerByHeight := fun _ => none
          eventsForRange := fun ty _ _ => if ty = b then .error er else .ok evs }
        ctxNever [a, b] s hdr t').1 = some .abort := by
    intro hdr s t'
    refine pollTypes_second_fails _ _ _ a b s hdr t' er rfl (fun u => rfl) ⟨evs, ?_⟩ ?_
    · simp [hab]
    · simp
  have hcheck : (checkSubscriptions
      { StartHeight := 0, PollingErrorBehavior := .ErrorBehaviorStop,
        subscriptions := [(a, la), (b, lb)] }
      { latestHeader := .ok ⟨head⟩
        headerByHeight := fun _ => none
        eventsForRange := fun ty _ _ => if ty = b then .error er else .ok evs }
      ctxNever ⟨last⟩ (t + 1)).1 = .error .abort := by
    show (checkSubsLoop _ _ ctxNever head last (t + 1)).1 = .error .abort
    exact checkSubsLoop_error _ _ ctxNever head .abort (fun n => rfl)
      (fun hdr s t' => hpt hdr s t') last (t + 1)
  simp [runLoop, hcheck, errorsIs, goErrorIs]

/-- Witness for `c4_stop_aborts`: two types "A" and "B", the fetch for "B"
fails; the run aborts and the height stays at 100. -/
theorem c4_witness :
    ("A" : String) ≠ "B"
    ∧ (runLoop
        { StartHeight := 0, PollingErrorBehavior := .ErrorBehaviorStop,
          subscriptions := [("A", [{ ID := "sA", Events := ["A"] }]),
            ("B", [{ ID := "sB", Events := ["B"] }])] }
        (fun _ =>
          { latestHeader := .ok ⟨160⟩
            headerByHeight := fun _ => none
            eventsForRange := fun ty _ _ =>
              if ty = "B" then .error (.other "boom") else .ok [] })
        ctxNever ⟨100⟩ 0 0 1).1 = .returned (some .abort) 100 :=
  ⟨by decide,
    c4_stop_aborts "A" "B" (by decide) [{ ID := "sA", Events := ["A"] }]
      [{ ID := "sB", Events := ["B"] }] [] (.other "boom") 100 160 0 0 0⟩

/-- C6: a tick whose latest-header query fails with an error that does not
wrap `ErrAbort` (with the context never cancelled) is skipped entirely: the
run loop continues at the next tick with the reference height unchanged, and
the failed tick's trace is empty — no window, no query, no delivery. -/
theorem c6_head_query_failure (p : EventPoller) (clients : Nat → TickClient)
    (H : Header) (i t fuel : Nat) (e : GoError)
    (hlat : (clients i).latestHeader = .error e)
    (hab : goErrorIs e .abort = false) :
    runLoop p clients ctxNever H i t (fuel + 1) =
      runLoop p clients ctxNever H (i + 1) (t + 1) fuel
    ∧ (checkSubscriptions p (clients i) ctxNever H (t + 1)).2.2 = Trace.nil := by
  have hcs : checkSubscriptions p (clients i) ctxNever H (t + 1) =
      (.error (.wrapped "error getting latest header" e), t + 1, Trace.nil) := by
    unfold checkSubscriptions
    rw [hlat]
  refine ⟨?_, by rw [hcs]⟩
  simp [runLoop, hcs, errorsIs, goErrorIs, hab]

/-- Witness for `c6_head_query_failure` at a concrete failing client. -/
theorem c6_witness :
    ((fun _ : Nat => errHeadClient (.other "netdown")) 0).latestHeader
        = .error (.other "netdown")
    ∧ goErrorIs (.other "netdown") .abort = false
    ∧ (runLoop (pollerOf .ErrorBehaviorContinue []) (fun _ => errHeadClient (.other "netdown"))
          ctxNever ⟨100⟩ 0 0 1 =
        runLoop (pollerOf .ErrorBehaviorContinue []) (fun _ => errHeadClient (.other "netdown"))
          ctxNever ⟨100⟩ 1 1 0
      ∧ (checkSubscriptions (pollerOf .ErrorBehaviorContinue []) (errHeadClient (.other "netdown"))
          ctxNever ⟨100⟩ 1).2.2 = Trace.nil) :=
  ⟨rfl, by decide,
    c6_head_query_failure (pollerOf .ErrorBehaviorContinue [])
      (fun _ => errHeadClient (.other "netdown")) ⟨100⟩ 0 0 0 (.other "netdown") rfl (by decide)⟩

/-- C5: wherever cancellation is observed in the polling loop, `Run` returns
nil: (i) at the idle select before a tick; (ii) when the per-tick
latest-header query fails with an error wrapping the cancellation while the
context is cancelled; (iii) likewise for the capped-window header-by-height
query; and (iv) in a concrete scenario where cancellation fires while a
dispatch send is pending, the dispatch stops early — only the first of the two
subscribers on "A" is delivered to — and the run ends returning nil. -/
theorem c5_cancellation_nil (p : EventPoller) (clients : Nat → TickClient)
    (ctx : Ctx) (H : Header) (i t fuel : Nat) :
    (ctx.isCancelled t = true →
      (runLoop p clients ctx H i t (fuel + 1)).1 = .returned none H.height)
    ∧ (∀ e, ctx.isCancelled (t + 1) = true → (clients i).latestHeader = .error e →
        goErrorIs e .canceled = true →
        (runLoop p clients ctx H i t (fuel + 1)).1 = .returned none H.height)
    ∧ (∀ e head, ctx.isCancelled (t + 1) = true →
        (clients i).latestHeader = .ok ⟨head⟩ →
        head > H.height + DefaultMaxHeightRange →
        (clients i).headerByHeight (H.height + DefaultMaxHeightRange) = some e →
        goErrorIs e .canceled = true →
        (runLoop p clients ctx H i t (fuel + 1)).1 = .returned none H.height)
    ∧ runLoop c5Poller (fun _ => c5Client) ⟨some 2⟩ ⟨100⟩ 0 0 2 =
        (.returned none 101, ⟨[(101, 101)], [("A", 101, 101)], [("s1", "A")]⟩) := by
  refine ⟨?_, ?_, ?_, ?_⟩
  · intro hc
    simp [runLoop, hc]
  · intro e h1 h2 h3
    by_cases hc : ctx.isCancelled t
    · simp [runLoop, hc]
    · have hcs : checkSubscriptions p (clients i) ctx H (t + 1) =
          (.error (.wrapped "error getting latest header" e), t + 1, Trace.nil) := by
        unfold checkSubscriptions
        rw [h2]
      simp [runLoop, hc, hcs, errorsIs, Ctx.err, h1, goErrorIs, h3]
  · intro e head h1 h2 hgt h4 h5
    by_cases hc : ctx.isCancelled t
    · simp [runLoop, hc]
    · have hcs : checkSubscriptions p (clients i) ctx H (t + 1) =
          (.error (.wrapped "error getting header for height" e), t + 1, Trace.nil) := by
        unfold checkSubscriptions
        rw [h2]
        show checkSubsLoop p (clients i) ctx head H.height (t + 1) = _
        rw [checkSubsLoop.eq_def, dif_pos hgt, h4]
      simp [runLoop, hc, hcs, errorsIs, Ctx.err, h1, goErrorIs, h5]
  · have hgt : ¬ (101 : Nat) > 100 + DefaultMaxHeightRange := by decide
    have hcs : checkSubscriptions c5Poller c5Client ⟨some 2⟩ ⟨100⟩ 1 =
        checkSubsLast 101 (checkSubsIter c5Poller c5Client ⟨some 2⟩ 100 ⟨101⟩ 1) := by
      show checkSubsLoop c5Poller c5Client ⟨some 2⟩ 101 100 1 = _
      rw [checkSubsLoop.eq_def, dif_neg hgt]
    have htick : checkSubscriptions c5Poller c5Client ⟨some 2⟩ ⟨100⟩ 1 =
        (.ok ⟨101⟩, 2, ⟨[(101, 101)], [("A", 101, 101)], [("s1", "A")]⟩) := by
      rw [hcs]
      rfl
    simp [runLoop, htick, errorsIs, Ctx.err, Ctx.isCancelled]

/-- Witness for `c5_cancellation_nil` at concrete scenarios for the idle
select, the cancelled latest-header query, and the cancelled header-by-height
query. -/
theorem c5_witness :
    ((⟨some 0⟩ : Ctx).isCancelled 0 = true
      ∧ (runLoop (pollerOf .ErrorBehaviorContinue []) (fun _ => okClient 100 [])
          ⟨some 0⟩ ⟨100⟩ 0 0 1).1 = .returned none (⟨100⟩ : Header).height)
    ∧ ((⟨some 1⟩ : Ctx).isCancelled (0 + 1) = true
      ∧ (errHeadClient (.wrapped "rpc" .canceled)).latestHeader
          = .error (.wrapped "rpc" .canceled)
      ∧ goErrorIs (.wrapped "rpc" .canceled) .canceled = true
      ∧ (runLoop (pollerOf .ErrorBehaviorContinue [])
          (fun _ => errHeadClient (.wrapped "rpc" .canceled))
          ⟨some 1⟩ ⟨100⟩ 0 0 1).1 = .returned none (⟨100⟩ : Header).height)
    ∧ ((⟨some 1⟩ : Ctx).isCancelled (0 + 1) = true
      ∧ (500 : Nat) > (⟨100⟩ : Header).height + DefaultMaxHeightRange
      ∧ (runLoop (pollerOf .ErrorBehaviorContinue [])
          (fun _ =>
            { latestHeader := .ok ⟨500⟩
              headerByHeight := fun _ => some (.wrapped "rpc" .canceled)
              eventsForRange := fun _ _ _ => .ok [] })
          ⟨some 1⟩ ⟨100⟩ 0 0 1).1 = .returned none (⟨100⟩ : Header).height) :=
  ⟨⟨by decide,
      (c5_cancellation_nil (pollerOf .ErrorBehaviorContinue []) (fun _ => okClient 100 [])
        ⟨some 0⟩ ⟨100⟩ 0 0 0).1 (by decide)⟩,
    ⟨by decide, rfl, by decide,
      (c5_cancellation_nil (pollerOf .ErrorBehaviorContinue [])
        (fun _ => errHeadClient (.wrapped "rpc" .canceled)) ⟨some 1⟩ ⟨100⟩ 0 0 0).2.1
        (.wrapped "rpc" .canceled) (by decide) rfl (by decide)⟩,
    ⟨by decide, by decide,
      (c5_cancellation_nil (pollerOf .ErrorBehaviorContinue [])
        (fun _ =>
          { latestHeader := .ok ⟨500⟩
            headerByHeight := fun _ => some (.wrapped "rpc" .canceled)
            eventsForRange := fun _ _ _ => .ok [] })
        ⟨some 1⟩ ⟨100⟩ 0 0 0).2.2.1
        (.wrapped "rpc" .canceled) 500 (by decide) rfl (by decide) rfl (by decide)⟩⟩

/-- C1 (code behaviour at the failing input): under the continue policy, a
tick in which the fetch for subscribed type "A" fails with a network error is
reported as a success by `checkSubscriptions` — it returns the advanced head
header with a nil error, so nothing marks the tick as failed; `Run` then takes
`errors.Is(nil, ctx.Err())` with both sides nil to be true and returns nil at
the pre-tick height; and when cancellation fires later in the same tick, `Run`
instead advances the reference height past the failed window before returning
nil. -/
theorem c1_continue_policy_divergence :
    (checkSubscriptions c1Poller c1Client ctxNever ⟨100⟩ 1).1 = .ok ⟨101⟩
    ∧ (runLoop c1Poller (fun _ => c1Client) ctxNever ⟨100⟩ 0 0 1).1 = .returned none 100
    ∧ (runLoop c1Poller (fun _ => c1Client) ⟨some 2⟩ ⟨100⟩ 0 0 2).1 = .returned none 101 := by
  have hgt : ¬ (101 : Nat) > 100 + DefaultMaxHeightRange := by decide
  have hcs : ∀ ctx : Ctx, checkSubscriptions c1Poller c1Client ctx ⟨100⟩ 1 =
      checkSubsLast 101 (checkSubsIter c1Poller c1Client ctx 100 ⟨101⟩ 1) := by
    intro ctx
    show checkSubsLoop c1Poller c1Client ctx 101 100 1 = _
    rw [checkSubsLoop.eq_def, dif_neg hgt]
  have htick1 : checkSubscriptions c1Poller c1Client ctxNever ⟨100⟩ 1 =
      (.ok ⟨101⟩, 2, ⟨[(101, 101)], [("A", 101, 101), ("B", 101, 101)], [("sB", "B")]⟩) := by
    rw [hcs]
    rfl
  have htick2 : checkSubscriptions c1Poller c1Client ⟨some 2⟩ ⟨100⟩ 1 =
      (.ok ⟨101⟩, 2, ⟨[(101, 101)], [("A", 101, 101), ("B", 101, 101)], [("sB", "B")]⟩) := by
    rw [hcs]
    rfl
  refine ⟨by rw [htick1], ?_, ?_⟩
  · simp [runLoop, htick1, errorsIs]
  · simp [runLoop, htick2, errorsIs, Ctx.err, Ctx.isCancelled]

/-- C10: a `StartHeight` of zero (the field's default) is treated as unset —
`Run` initializes its reference from the latest sealed header; a strictly
positive `StartHeight` makes `Run` fetch and use the header of exactly that
height, so no caller can explicitly start at height 0. -/
theorem c10_start_height (beh : ErrorBehavior) (subs : SubsMap)
    (clients : Nat → TickClient) (ctx : Ctx) (cl : TickClient) (s hd : Nat)
    (hlat : cl.latestHeader = .ok ⟨hd⟩)
    (hbh : ∀ n, cl.headerByHeight n = none) :
    (run { StartHeight := 0, PollingErrorBehavior := beh, subscriptions := subs }
        cl clients ctx 0).1 = .running hd
    ∧ (0 < s →
      (run { StartHeight := s, PollingErrorBehavior := beh, subscriptions := subs }
          cl clients ctx 0).1 = .running s) := by
  constructor
  · simp [run, startHeader, hlat, runLoop]
  · intro hs
    simp [run, startHeader, hs, hbh s, runLoop]

/-- Witness for `c10_start_height`: head at 77, configured start height 55. -/
theorem c10_witness :
    ((okClient 77 []).latestHeader = .ok ⟨77⟩
      ∧ (∀ n, (okClient 77 []).headerByHeight n = none))
    ∧ ((run
          { StartHeight := 0, PollingErrorBehavior := .ErrorBehaviorContinue,
            subscriptions := [] }
          (okClient 77 []) (fun _ => okClient 77 []) ctxNever 0).1 = .running 77
      ∧ (0 < 55 →
        (run
          { StartHeight := 55, PollingErrorBehavior := .ErrorBehaviorContinue,
            subscriptions := [] }
          (okClient 77 []) (fun _ => okClient 77 []) ctxNever 0).1 = .running 55)) :=
  ⟨⟨rfl, fun n => rfl⟩,
    c10_start_height .ErrorBehaviorContinue [] (fun _ => okClient 77 []) ctxNever
      (okClient 77 []) 55 77 rfl (fun n => rfl)⟩

end FlowEventPoller
